import Mathlib

/-!
Verification of the mailops rule-matching and page-exclusion engine.

Shallow embedding of:
  src/mailops/models.py        (EmailMessage projection used by matching)
  src/mailops/rules.py         (predicates, rule_from_config, RulesEngine)
  src/mailops/config.py        (MatchCriteria / PrintRule as actually declared)
  src/mailops/pdf/text_density.py (percentile, suggest_excludes_hybrid)
  src/mailops/pdf/page_signals.py (PageSignals record)
  src/mailops/pdf/suggest.py   (SuggestConfig, suggest_excludes)

Python strings are modelled as `List Char` (`PyStr`); Python floats as `ℚ`
(the algorithms under test only use field arithmetic, comparison and floor).
Python's `sorted` is modelled by `List.insertionSort (· ≤ ·)`: `sorted` is a
stable sort, and a stable sort's output list is uniquely determined by the
input, so any stable Lean sort is a faithful model; `insertionSort` is stable
and reduces structurally.
-/

/-- Python `str` modelled as a list of characters. -/
abbrev PyStr := List Char

/-- Convenience: build a `PyStr` from a Lean string literal. -/
def pyStr (s : String) : PyStr := s.toList

/-- Python `str.lower()` (the sources only ever lower ASCII text). -/
def pyLower (s : PyStr) : PyStr := s.map Char.toLower

/-- Python `str.strip()`: drop leading and trailing whitespace. -/
def pyStrip (s : PyStr) : PyStr :=
  ((s.dropWhile Char.isWhitespace).reverse.dropWhile Char.isWhitespace).reverse

/-- Python `needle in hay` on strings: contiguous-substring test. -/
def pyIn (needle hay : PyStr) : Bool :=
  match hay with
  | [] => decide (needle = [])
  | _ :: t => needle.isPrefixOf hay || pyIn needle t

/-- models.py `EmailMessage`, restricted to the fields predicate evaluation
reads (`from_email`, `subject`); the other fields never influence matching. -/
structure EmailMessage where
  from_email : PyStr
  subject : PyStr
deriving DecidableEq, Repr

/-- rules.py `Rule`. -/
structure Rule where
  name : PyStr
  predicate : EmailMessage → Bool
  action : PyStr

/-- rules.py `RulesEngine`: holds the ordered rule list. -/
structure RulesEngine where
  rules : List Rule

/-- rules.py `RulesEngine.first_match`: the `for`/`if`/`return` loop is
exactly `List.find?`. -/
def RulesEngine.first_match (e : RulesEngine) (msg : EmailMessage) : Option Rule :=
  e.rules.find? (fun r => r.predicate msg)

/-- rules.py `match_from_exact`. -/
def match_from_exact (addr : PyStr) : EmailMessage → Bool :=
  let addr_l := pyLower (pyStrip addr)
  fun msg => decide (pyLower (pyStrip msg.from_email) = addr_l)

/-- rules.py `subject_contains`. -/
def subject_contains (needle : PyStr) : EmailMessage → Bool :=
  let needle_l := pyLower needle
  fun msg => pyIn needle_l (pyLower msg.subject)

/-- rules.py `subject_excludes`: `needle_l not in (msg.subject or "").lower()`. -/
def subject_excludes (needle : PyStr) : EmailMessage → Bool :=
  let needle_l := pyLower needle
  fun msg => !(pyIn needle_l (pyLower msg.subject))

/-- rules.py `match_from_domain`. -/
def match_from_domain (domain : PyStr) : EmailMessage → Bool :=
  let domain_l := pyLower (pyStrip domain)
  fun msg => pyIn ('@' :: domain_l) (pyLower msg.from_email)

/-- rules.py `all_of`: conjunction of a list of predicates. -/
def all_of (preds : List (EmailMessage → Bool)) : EmailMessage → Bool :=
  fun msg => preds.all (fun p => p msg)

/-- Python exceptions that the embedded code can raise. -/
inductive PyExc where
  | attributeError
deriving DecidableEq, Repr

/-- config.py `MatchCriteria` exactly as declared (lines 26-60).  Note: the
dataclass declares NO `subject_excludes` field, although rules.py line 87
reads `m.subject_excludes` and tests/test_enhanced_rules.py constructs
`MatchCriteria(..., subject_excludes="promo")`. -/
structure MatchCriteria where
  header_list_id_contains : Option PyStr := none
  requires_unsubscribe_header : Bool := false
  from_domain : Option PyStr := none
  from_exact : Option PyStr := none
  subject_contains : Option PyStr := none
deriving DecidableEq, Repr

/-- Python attribute lookup `m.subject_excludes` on a config.py
`MatchCriteria`: the dataclass has no such field, so the lookup raises
`AttributeError`. -/
def MatchCriteria.subject_excludes_attr (_ : MatchCriteria) : Except PyExc (Option PyStr) :=
  Except.error PyExc.attributeError

/-- config.py `PrintRule` (`match` is a Lean keyword, hence `match_`). -/
structure PrintRule where
  name : PyStr
  action : PyStr
  match_ : MatchCriteria
deriving DecidableEq, Repr

/-- Python truthiness gate `if m.<field>: preds.append(f(m.<field>))` used
four times in rules.py `rule_from_config`: `None` and `""` are falsy. -/
def optPred (o : Option PyStr) (f : PyStr → EmailMessage → Bool) :
    List (EmailMessage → Bool) :=
  match o with
  | none => []
  | some s => if s = [] then [] else [f s]

/-- rules.py `rule_from_config` (lines 71-95), applied to the `PrintRule` and
`MatchCriteria` actually declared in config.py.  The first three field reads
succeed; the read of `m.subject_excludes` raises, so the result is modelled
in `Except`. -/
def rule_from_config (pr : PrintRule) : Except PyExc Rule :=
  let m := pr.match_
  let preds : List (EmailMessage → Bool) :=
    optPred m.from_exact match_from_exact ++
    optPred m.from_domain match_from_domain ++
    optPred m.subject_contains subject_contains
  match m.subject_excludes_attr with
  | Except.error e => Except.error e
  | Except.ok se =>
    let preds := preds ++ optPred se subject_excludes
    let predicate :=
      match preds with
      | [] => fun _ => false
      | ps => all_of ps
    Except.ok ⟨pr.name, predicate, pr.action⟩

/-- The match-criteria record that rules.py `rule_from_config` actually
requires of its input, i.e. config.py's `MatchCriteria` extended with the
`subject_excludes` field that spec §3 documents, web_server.py binds, and
tests/test_enhanced_rules.py passes to the constructor. -/
structure MatchCriteriaFull where
  header_list_id_contains : Option PyStr := none
  requires_unsubscribe_header : Bool := false
  from_domain : Option PyStr := none
  from_exact : Option PyStr := none
  subject_contains : Option PyStr := none
  subject_excludes : Option PyStr := none
deriving DecidableEq, Repr

/-- The `PrintRule` record over the full criteria record. -/
structure PrintRuleFull where
  name : PyStr
  action : PyStr
  match_ : MatchCriteriaFull
deriving DecidableEq, Repr

/-- rules.py `rule_from_config` evaluated on an input that does carry a
`subject_excludes` attribute (the situation its own tests exercise): the four
truthiness gates append sub-predicates in source order, and an empty list
compiles to the constant-false predicate. -/
def rule_from_config_full (pr : PrintRuleFull) : Rule :=
  let m := pr.match_
  let preds : List (EmailMessage → Bool) :=
    optPred m.from_exact match_from_exact ++
    optPred m.from_domain match_from_domain ++
    optPred m.subject_contains subject_contains ++
    optPred m.subject_excludes subject_excludes
  let predicate :=
    match preds with
    | [] => fun _ => false
    | ps => all_of ps
  ⟨pr.name, predicate, pr.action⟩

/-- text_density.py `PageTextStats`. -/
structure PageTextStats where
  page_index : ℕ
  char_count : ℕ
  area_sq_in : ℚ
  density : ℚ
deriving DecidableEq, Repr

/-- Python `min(values)` on a non-empty list (`List.min?` is literally
`foldl min` over the tail, like CPython's left-to-right scan); the `getD 0`
default is never reached on the non-empty inputs the sources feed it. -/
def pymin (l : List ℚ) : ℚ := l.min?.getD 0

/-- Python `max(values)`, see `pymin`. -/
def pymax (l : List ℚ) : ℚ := l.max?.getD 0

/-- text_density.py `percentile` (lines 50-70).  `int(r)` truncates toward
zero; in the branch where it is evaluated `r ≥ 0`, so `Int.toNat ∘ Int.floor`
is exact.  `xs[lo]`/`xs[hi]` are modelled with `getD` (the indices are always
in range, so the default is dead). -/
def percentile (values : List ℚ) (p : ℚ) : ℚ :=
  if values = [] then 0
  else if p ≤ 0 then pymin values
  else if 100 ≤ p then pymax values
  else
    let xs := List.insertionSort (· ≤ ·) values
    let n := xs.length
    let r := p / 100 * ((n : ℚ) - 1)
    let lo := (⌊r⌋).toNat
    let hi := min (lo + 1) (n - 1)
    let frac := r - (lo : ℚ)
    xs.getD lo 0 * (1 - frac) + xs.getD hi 0 * frac

/-- The linear-interpolation kernel of `percentile`'s interior branch, as a
function of the sorted list and the fractional rank `r`. -/
def interp (xs : List ℚ) (r : ℚ) : ℚ :=
  let n := xs.length
  let lo := (⌊r⌋).toNat
  let hi := min (lo + 1) (n - 1)
  let frac := r - (lo : ℚ)
  xs.getD lo 0 * (1 - frac) + xs.getD hi 0 * frac

/-- The percentile function as worded by spec §4.5: empty sequence ↦ 0.0;
`p ≤ 0` ↦ minimum; `p ≥ 100` ↦ maximum; otherwise sort the values, take
`r = (p/100)·(n-1)`, `lo = ⌊r⌋`, `hi = min(lo+1, n-1)`, `frac = r - lo`, and
return `xs[lo]·(1-frac) + xs[hi]·frac`.  Written independently of
`percentile`: minimum/maximum as right folds, the sort as `mergeSort`, and
the rank arithmetic over `ℤ`. -/
def percentileSpec (values : List ℚ) (p : ℚ) : ℚ :=
  match values with
  | [] => 0
  | v :: vs =>
    if p ≤ 0 then vs.foldr min v
    else if 100 ≤ p then vs.foldr max v
    else
      let xs := (v :: vs).mergeSort (fun a b => decide (a ≤ b))
      let n := (v :: vs).length
      let r := p / 100 * ((n : ℚ) - 1)
      let lo : ℤ := ⌊r⌋
      let hi : ℤ := min (lo + 1) ((n : ℤ) - 1)
      let frac := r - (lo : ℚ)
      xs.getD lo.toNat 0 * (1 - frac) + xs.getD hi.toNat 0 * frac

/-- text_density.py `suggest_excludes_hybrid` (lines 73-109).  Python's
`sorted(set(flagged))` is the ascending list of the distinct flagged indices,
modelled as `insertionSort ∘ dedup`; the `key=` sort in the `max_suggestions`
branch is a stable sort by density of the first stat carrying the index
(`next(st.density for st in stats if st.page_index == idx)`). -/
def suggest_excludes_hybrid (stats : List PageTextStats) (abs_min_chars : ℕ)
    (abs_min_density : ℚ) (rel_percentile : ℚ) (max_suggestions : Option ℕ) :
    List ℕ :=
  if stats = [] then []
  else
    let densities := stats.map (fun s => s.density)
    let cutoff := percentile densities rel_percentile
    let flagged := (stats.filter (fun s =>
      (decide (s.char_count < abs_min_chars) || decide (s.density < abs_min_density)) ||
        decide (s.density ≤ cutoff))).map (fun s => s.page_index)
    let flagged := List.insertionSort (· ≤ ·) flagged.dedup
    match max_suggestions with
    | none => flagged
    | some k =>
      let key : ℕ → ℚ := fun idx =>
        (((stats.find? (fun st => decide (st.page_index = idx))).map
          (fun st => st.density)).getD 0)
      (List.insertionSort (fun a b => key a ≤ key b) flagged).take k

/-- page_signals.py `PageSignals`. -/
structure PageSignals where
  page_index : ℕ
  char_count : ℕ
  area_sq_in : ℚ
  image_count : ℕ
  largest_image_pixels : ℕ
  total_image_pixels : ℕ
  image_dominant : Bool
deriving DecidableEq, Repr

/-- suggest.py `SuggestConfig`. -/
structure SuggestConfig where
  abs_min_chars : ℕ := 250
  dominant_pixels_threshold : ℕ := 1000000
  rel_percentile : ℚ := 15
  rel_apply_only_if_chars_below : ℕ := 350
deriving DecidableEq, Repr

/-- The absolute-low-text index set of suggest.py (`absolute`), as a list in
signal order. -/
def absoluteLowText (signals : List PageSignals) (cfg : SuggestConfig) : List ℕ :=
  (signals.filter (fun s => decide (s.char_count < cfg.abs_min_chars))).map
    (fun s => s.page_index)

/-- The image-dominant index set of suggest.py (`image_dom`), as a list in
signal order. -/
def imageDominant (signals : List PageSignals) : List ℕ :=
  (signals.filter (fun s => s.image_dominant)).map (fun s => s.page_index)

/-- suggest.py `suggest_excludes` (lines 22-43).  The Python set union
followed by `sorted(...)` produces the ascending list of the distinct
elements, modelled as `insertionSort ∘ dedup` over the concatenation. -/
def suggest_excludes (signals : List PageSignals) (cfg : SuggestConfig) : List ℕ :=
  if signals = [] then []
  else
    let absolute := absoluteLowText signals cfg
    let image_dom := imageDominant signals
    let candidates := signals.filter (fun s =>
      decide (s.char_count < cfg.rel_apply_only_if_chars_below))
    let relative : List ℕ :=
      match candidates with
      | [] => []
      | _ =>
        let values := candidates.map (fun s => (s.char_count : ℚ))
        let cutoff := percentile values cfg.rel_percentile
        (candidates.filter (fun s => decide ((s.char_count : ℚ) ≤ cutoff))).map
          (fun s => s.page_index)
    List.insertionSort (· ≤ ·) (absolute ++ image_dom ++ relative).dedup

/-! Concrete inputs used to instantiate the general theorems. -/

/-- The `PrintRuleFull` of tests/test_enhanced_rules.py
`test_rule_factory_composition`. -/
def promoRule : PrintRuleFull :=
  ⟨pyStr "No Promos", pyStr "archive",
    { from_domain := some (pyStr "example.com"),
      subject_excludes := some (pyStr "promo") }⟩

/-- A rule matching any subject containing "order". -/
def demoRuleA : Rule :=
  ⟨pyStr "archive_orders", subject_contains (pyStr "order"), pyStr "archive"⟩

/-- A rule matching any subject containing "o"; `demoMsg` matches both
`demoRuleA` and `demoRuleB`. -/
def demoRuleB : Rule :=
  ⟨pyStr "print_o", subject_contains (pyStr "o"), pyStr "print"⟩

/-- A message matched by both demo rules. -/
def demoMsg : EmailMessage := ⟨pyStr "orders@example.com", pyStr "Order #12345"⟩

/-- Two pages, both absolutely flagged (zero characters), equal density. -/
def cexStats : List PageTextStats := [⟨0, 0, 1, 0⟩, ⟨1, 0, 1, 0⟩]

/-- One page with plenty of text: above every absolute threshold. -/
def demoStats : List PageTextStats := [⟨0, 3000, 1, 3000⟩]

/-- A page with no text at all. -/
def emptyPageStat : PageTextStats := ⟨0, 0, 1, 0⟩

/-- Two text-heavy page signal records (both at or above the relative gate of
350 characters); page 0 is image-dominant. -/
def demoSignals : List PageSignals :=
  [⟨0, 400, 1, 1, 2000000, 2000000, true⟩, ⟨1, 500, 1, 0, 0, 0, false⟩]

/-! Theorems. -/

/-- Auxiliary: `List.find?` returns the element at the first index whose predicate
holds, when all earlier indices fail. -/
lemma find?_eq_some_of_first (rules : List Rule) (msg : EmailMessage) :
    ∀ (i : ℕ) (hi : i < rules.length),
      (rules.get ⟨i, hi⟩).predicate msg = true →
      (∀ (j : ℕ) (hj : j < i), (rules.get ⟨j, Nat.lt_trans hj hi⟩).predicate msg = false) →
      rules.find? (fun r => r.predicate msg) = some (rules.get ⟨i, hi⟩) := by
  induction rules with
  | nil => intro i hi; exact absurd hi (Nat.not_lt_zero i)
  | cons r t ih =>
    intro i hi hp hbef
    cases i with
    | zero =>
      exact List.find?_cons_of_pos t hp
    | succ i' =>
      have h0 : r.predicate msg = false := hbef 0 (Nat.succ_pos i')
      calc List.find? (fun r' => r'.predicate msg) (r :: t)
          = List.find? (fun r' => r'.predicate msg) t :=
            List.find?_cons_of_neg t (by simp [h0])
        _ = some ((r :: t).get ⟨i' + 1, hi⟩) :=
            ih i' (Nat.lt_of_succ_lt_succ hi) hp
              (fun j hj => hbef (j + 1) (Nat.succ_lt_succ hj))

/-- C2: `RulesEngine.first_match` returns `none` iff no rule's predicate
holds; any returned rule is in the list with a true predicate; and if the
rule at index `i` matches while every earlier rule fails, the rule at index
`i` is returned — so of two matching rules the one earlier in configuration
order wins. -/
theorem RulesEngine.first_match_spec (e : RulesEngine) (msg : EmailMessage) :
    (e.first_match msg = none ↔ ∀ r ∈ e.rules, r.predicate msg = false) ∧
    (∀ r : Rule, e.first_match msg = some r → r ∈ e.rules ∧ r.predicate msg = true) ∧
    (∀ (i : ℕ) (hi : i < e.rules.length),
      (e.rules.get ⟨i, hi⟩).predicate msg = true →
      (∀ (j : ℕ) (hj : j < i), (e.rules.get ⟨j, Nat.lt_trans hj hi⟩).predicate msg = false) →
      e.first_match msg = some (e.rules.get ⟨i, hi⟩)) := by
  refine ⟨?_, ?_, find?_eq_some_of_first e.rules msg⟩
  · simp [RulesEngine.first_match, List.find?_eq_none]
  · intro r h
    have h' : List.find? (fun r' => r'.predicate msg) e.rules = some r := h
    have hpred := List.find?_some h'
    exact ⟨List.mem_of_find?_eq_some h', hpred⟩

/-- C2 witness: both demo rules match `demoMsg`; the engine returns the one
listed first. -/
theorem first_match_spec_witness :
    (RulesEngine.mk [demoRuleA, demoRuleB]).first_match demoMsg = some demoRuleA := by
  refine (RulesEngine.first_match_spec ⟨[demoRuleA, demoRuleB]⟩ demoMsg).2.2 0 (by norm_num)
    (by decide) ?_
  intro j hj
  exact absurd hj (Nat.not_lt_zero j)

/-- C7: `subject_excludes` is pointwise the boolean negation of
`subject_contains` for the same needle on every message; both embed the same
case-insensitive substring test, once under Python `in` and once under
`not in`. -/
theorem subject_excludes_eq_not_subject_contains (needle : PyStr) (msg : EmailMessage) :
    subject_excludes needle msg = !(subject_contains needle msg) := rfl

/-- C9 (code bug): `rule_from_config` raises `AttributeError` on every
`PrintRule` built from config.py's `MatchCriteria`, because the dataclass
declares no `subject_excludes` field while rules.py line 87 reads it.
Compilation therefore always fails instead of never failing. -/
theorem rule_from_config_always_errors (pr : PrintRule) :
    rule_from_config pr = Except.error PyExc.attributeError := rfl

/-- C1 (code bug): on an all-fields-absent criteria record the compiler as
shipped raises `AttributeError` before producing any rule; on an input
carrying the `subject_excludes` attribute the compiler's own logic does
produce the constant-false predicate the spec requires. -/
theorem rule_from_config_empty_criteria :
    (∀ (name action : PyStr),
        rule_from_config ⟨name, action, {}⟩ = Except.error PyExc.attributeError) ∧
    (∀ (name action : PyStr) (msg : EmailMessage),
        (rule_from_config_full ⟨name, action, {}⟩).predicate msg = false) :=
  ⟨fun _ _ => rfl, fun _ _ _ => rfl⟩

/-- C4 (code bug, intended behavior): the predicate rules.py compiles from
`from_domain="example.com", subject_excludes="promo"` accepts
`a@example.com` / "Update", rejects the same sender with subject
"Summer Promo", and rejects `a@other.com` under every subject.  (The shipped
config.py `MatchCriteria` cannot even be constructed with a
`subject_excludes` keyword, which is the bug.) -/
theorem rule_from_config_full_scenario_b :
    (rule_from_config_full promoRule).predicate ⟨pyStr "a@example.com", pyStr "Update"⟩ = true ∧
    (rule_from_config_full promoRule).predicate
      ⟨pyStr "a@example.com", pyStr "Summer Promo"⟩ = false ∧
    ∀ subject : PyStr,
      (rule_from_config_full promoRule).predicate ⟨pyStr "a@other.com", subject⟩ = false := by
  refine ⟨by decide, by decide, ?_⟩
  intro subject
  have hdom : match_from_domain (pyStr "example.com") ⟨pyStr "a@other.com", subject⟩ = false := by
    show pyIn ('@' :: pyLower (pyStrip (pyStr "example.com"))) (pyLower (pyStr "a@other.com")) =
      false
    decide
  show all_of [match_from_domain (pyStr "example.com"), subject_excludes (pyStr "promo")]
      ⟨pyStr "a@other.com", subject⟩ = false
  simp [all_of, hdom]

/-! Minimum/maximum facts about the Python `min`/`max` model. -/

lemma foldl_min_le_init (l : List ℚ) (a : ℚ) : l.foldl min a ≤ a := by
  induction l generalizing a with
  | nil => exact le_refl a
  | cons b t ih => exact le_trans (ih (min a b)) (min_le_left a b)

lemma foldl_min_le_mem (l : List ℚ) (a : ℚ) : ∀ y ∈ l, l.foldl min a ≤ y := by
  induction l generalizing a with
  | nil => intro y hy; exact absurd hy (List.not_mem_nil y)
  | cons b t ih =>
    intro y hy
    rcases List.mem_cons.mp hy with h | h
    · subst h
      exact le_trans (foldl_min_le_init t (min a y)) (min_le_right a y)
    · exact ih (min a b) y h

lemma foldl_min_mem (l : List ℚ) (a : ℚ) : l.foldl min a = a ∨ l.foldl min a ∈ l := by
  induction l generalizing a with
  | nil => exact Or.inl rfl
  | cons b t ih =>
    simp only [List.foldl_cons]
    rcases ih (min a b) with h | h
    · rcases min_choice a b with hab | hab
      · exact Or.inl (h.trans hab)
      · exact Or.inr (List.mem_cons.mpr (Or.inl (h.trans hab)))
    · exact Or.inr (List.mem_cons_of_mem b h)

lemma foldl_max_ge_init (l : List ℚ) (a : ℚ) : a ≤ l.foldl max a := by
  induction l generalizing a with
  | nil => exact le_refl a
  | cons b t ih => exact le_trans (le_max_left a b) (ih (max a b))

lemma foldl_max_ge_mem (l : List ℚ) (a : ℚ) : ∀ y ∈ l, y ≤ l.foldl max a := by
  induction l generalizing a with
  | nil => intro y hy; exact absurd hy (List.not_mem_nil y)
  | cons b t ih =>
    intro y hy
    rcases List.mem_cons.mp hy with h | h
    · subst h
      exact le_trans (le_max_right a y) (foldl_max_ge_init t (max a y))
    · exact ih (max a b) y h

lemma foldl_max_mem (l : List ℚ) (a : ℚ) : l.foldl max a = a ∨ l.foldl max a ∈ l := by
  induction l generalizing a with
  | nil => exact Or.inl rfl
  | cons b t ih =>
    simp only [List.foldl_cons]
    rcases ih (max a b) with h | h
    · rcases max_choice a b with hab | hab
      · exact Or.inl (h.trans hab)
      · exact Or.inr (List.mem_cons.mpr (Or.inl (h.trans hab)))
    · exact Or.inr (List.mem_cons_of_mem b h)

lemma pymin_mem (l : List ℚ) (h : l ≠ []) : pymin l ∈ l := by
  cases l with
  | nil => exact absurd rfl h
  | cons v vs =>
    have hrw : pymin (v :: vs) = vs.foldl min v := rfl
    rw [hrw]
    rcases foldl_min_mem vs v with h' | h'
    · rw [h']; exact List.mem_cons_self v vs
    · exact List.mem_cons_of_mem v h'

lemma pymin_le (l : List ℚ) (y : ℚ) (hy : y ∈ l) : pymin l ≤ y := by
  cases l with
  | nil => exact absurd hy (List.not_mem_nil y)
  | cons v vs =>
    have hrw : pymin (v :: vs) = vs.foldl min v := rfl
    rw [hrw]
    rcases List.mem_cons.mp hy with h | h
    · subst h; exact foldl_min_le_init vs y
    · exact foldl_min_le_mem vs v y h

lemma pymax_mem (l : List ℚ) (h : l ≠ []) : pymax l ∈ l := by
  cases l with
  | nil => exact absurd rfl h
  | cons v vs =>
    have hrw : pymax (v :: vs) = vs.foldl max v := rfl
    rw [hrw]
    rcases foldl_max_mem vs v with h' | h'
    · rw [h']; exact List.mem_cons_self v vs
    · exact List.mem_cons_of_mem v h'

lemma pymax_ge (l : List ℚ) (y : ℚ) (hy : y ∈ l) : y ≤ pymax l := by
  cases l with
  | nil => exact absurd hy (List.not_mem_nil y)
  | cons v vs =>
    have hrw : pymax (v :: vs) = vs.foldl max v := rfl
    rw [hrw]
    rcases List.mem_cons.mp hy with h | h
    · subst h; exact foldl_max_ge_init vs y
    · exact foldl_max_ge_mem vs v y h

/-! Rank and interpolation facts for `percentile`'s interior branch. -/

lemma length_pos_of_rank {n : ℕ} {r : ℚ} (h0 : 0 ≤ r) (h1 : r ≤ (n : ℚ) - 1) :
    1 ≤ n := by
  by_contra hc
  push_neg at hc
  have hz : n = 0 := by omega
  rw [hz] at h1
  norm_num at h1
  linarith

lemma toNat_floor_cast {r : ℚ} (h0 : 0 ≤ r) : (((⌊r⌋).toNat : ℕ) : ℚ) = (⌊r⌋ : ℚ) := by
  have h := Int.toNat_of_nonneg (Int.floor_nonneg.mpr h0)
  exact_mod_cast congrArg (fun z : ℤ => (z : ℚ)) h

lemma floor_toNat_le {n : ℕ} {r : ℚ} (h0 : 0 ≤ r) (h1 : r ≤ (n : ℚ) - 1) :
    (⌊r⌋).toNat ≤ n - 1 := by
  have hn := length_pos_of_rank h0 h1
  have hcast : (((⌊r⌋).toNat : ℕ) : ℚ) ≤ ((n - 1 : ℕ) : ℚ) := by
    rw [toNat_floor_cast h0, Nat.cast_sub hn]
    push_cast
    linarith [Int.floor_le r]
  exact_mod_cast hcast

lemma getD_mem (l : List ℚ) (i : ℕ) (d : ℚ) (h : i < l.length) : l.getD i d ∈ l := by
  induction l generalizing i with
  | nil => simp at h
  | cons a t ih =>
    cases i with
    | zero => simp [List.getD]
    | succ j =>
      rw [List.getD_cons_succ]
      exact List.mem_cons_of_mem a (ih j (Nat.lt_of_succ_lt_succ h))

lemma getD_eq_get (l : List ℚ) (i : ℕ) (d : ℚ) (h : i < l.length) :
    l.getD i d = l.get ⟨i, h⟩ := by
  induction l generalizing i with
  | nil => simp at h
  | cons a t ih =>
    cases i with
    | zero => rfl
    | succ j =>
      rw [List.getD_cons_succ]
      exact ih j (Nat.lt_of_succ_lt_succ h)

lemma sorted_getD_mono (xs : List ℚ) (hs : List.Sorted (· ≤ ·) xs) (i j : ℕ) (d : ℚ)
    (hij : i ≤ j) (hj : j < xs.length) : xs.getD i d ≤ xs.getD j d := by
  have hi : i < xs.length := Nat.lt_of_le_of_lt hij hj
  rcases Nat.eq_or_lt_of_le hij with he | hlt
  · subst he; exact le_refl _
  · rw [getD_eq_get xs i d hi, getD_eq_get xs j d hj]
    exact List.pairwise_iff_get.mp hs ⟨i, hi⟩ ⟨j, hj⟩ hlt

lemma frac_nonneg {r : ℚ} (h0 : 0 ≤ r) : 0 ≤ r - (((⌊r⌋).toNat : ℕ) : ℚ) := by
  rw [toNat_floor_cast h0]
  linarith [Int.floor_le r]

lemma frac_le_one {r : ℚ} (h0 : 0 ≤ r) : r - (((⌊r⌋).toNat : ℕ) : ℚ) ≤ 1 := by
  rw [toNat_floor_cast h0]
  linarith [Int.lt_floor_add_one r]

lemma le_interp {xs : List ℚ} {r m : ℚ} (h0 : 0 ≤ r) (h1 : r ≤ (xs.length : ℚ) - 1)
    (hm : ∀ y ∈ xs, m ≤ y) : m ≤ interp xs r := by
  have hn : 1 ≤ xs.length := length_pos_of_rank h0 h1
  have hlon : (⌊r⌋).toNat ≤ xs.length - 1 := floor_toNat_le h0 h1
  have hlo_lt : (⌊r⌋).toNat < xs.length := by omega
  have hhi_lt : min ((⌊r⌋).toNat + 1) (xs.length - 1) < xs.length := by omega
  have hA := hm _ (getD_mem xs ((⌊r⌋).toNat) 0 hlo_lt)
  have hB := hm _ (getD_mem xs (min ((⌊r⌋).toNat + 1) (xs.length - 1)) 0 hhi_lt)
  have hf0 := frac_nonneg h0
  have hf1 := frac_le_one h0
  simp only [interp]
  nlinarith [mul_nonneg (sub_nonneg.mpr hA)
      (by linarith : (0:ℚ) ≤ 1 - (r - (((⌊r⌋).toNat : ℕ) : ℚ))),
    mul_nonneg (sub_nonneg.mpr hB) hf0]

lemma interp_le {xs : List ℚ} {r m : ℚ} (h0 : 0 ≤ r) (h1 : r ≤ (xs.length : ℚ) - 1)
    (hm : ∀ y ∈ xs, y ≤ m) : interp xs r ≤ m := by
  have hn : 1 ≤ xs.length := length_pos_of_rank h0 h1
  have hlon : (⌊r⌋).toNat ≤ xs.length - 1 := floor_toNat_le h0 h1
  have hlo_lt : (⌊r⌋).toNat < xs.length := by omega
  have hhi_lt : min ((⌊r⌋).toNat + 1) (xs.length - 1) < xs.length := by omega
  have hA := hm _ (getD_mem xs ((⌊r⌋).toNat) 0 hlo_lt)
  have hB := hm _ (getD_mem xs (min ((⌊r⌋).toNat + 1) (xs.length - 1)) 0 hhi_lt)
  have hf0 := frac_nonneg h0
  have hf1 := frac_le_one h0
  simp only [interp]
  nlinarith [mul_nonneg (sub_nonneg.mpr hA)
      (by linarith : (0:ℚ) ≤ 1 - (r - (((⌊r⌋).toNat : ℕ) : ℚ))),
    mul_nonneg (sub_nonneg.mpr hB) hf0]

/-! Bounds on `percentile`. -/

lemma pct_rank_nonneg {values : List ℚ} {p : ℚ} (h : values ≠ []) (hp : ¬ p ≤ 0) :
    0 ≤ p / 100 * (((List.insertionSort (· ≤ ·) values).length : ℚ) - 1) := by
  have hn : 1 ≤ (List.insertionSort (· ≤ ·) values).length := by
    rw [(List.perm_insertionSort (· ≤ ·) values).length_eq]
    exact List.length_pos.mpr h
  have h1 : (1:ℚ) ≤ ((List.insertionSort (· ≤ ·) values).length : ℚ) := by exact_mod_cast hn
  have hp' : 0 < p := lt_of_not_ge hp
  exact mul_nonneg (div_nonneg (le_of_lt hp') (by norm_num)) (by linarith)

lemma pct_rank_le {values : List ℚ} {p : ℚ} (h : values ≠ []) (hp : ¬ 100 ≤ p) :
    p / 100 * (((List.insertionSort (· ≤ ·) values).length : ℚ) - 1) ≤
      ((List.insertionSort (· ≤ ·) values).length : ℚ) - 1 := by
  by_cases hp0 : p ≤ 0
  · have hn : 1 ≤ (List.insertionSort (· ≤ ·) values).length := by
      rw [(List.perm_insertionSort (· ≤ ·) values).length_eq]
      exact List.length_pos.mpr h
    have h1 : (1:ℚ) ≤ ((List.insertionSort (· ≤ ·) values).length : ℚ) := by exact_mod_cast hn
    nlinarith
  · have hn : 1 ≤ (List.insertionSort (· ≤ ·) values).length := by
      rw [(List.perm_insertionSort (· ≤ ·) values).length_eq]
      exact List.length_pos.mpr h
    have h1 : (1:ℚ) ≤ ((List.insertionSort (· ≤ ·) values).length : ℚ) := by exact_mod_cast hn
    have hdiv : p / 100 ≤ 1 := by
      rw [div_le_one (by norm_num : (0:ℚ) < 100)]
      linarith [lt_of_not_ge hp]
    exact mul_le_of_le_one_left (by linarith) hdiv

lemma pymin_le_percentile (values : List ℚ) (p : ℚ) (h : values ≠ []) :
    pymin values ≤ percentile values p := by
  by_cases h0 : p ≤ 0
  · unfold percentile
    rw [if_neg h, if_pos h0]
  · by_cases h100 : 100 ≤ p
    · unfold percentile
      rw [if_neg h, if_neg h0, if_pos h100]
      exact pymin_le values (pymax values) (pymax_mem values h)
    · unfold percentile
      rw [if_neg h, if_neg h0, if_neg h100]
      show pymin values ≤ interp (List.insertionSort (· ≤ ·) values)
        (p / 100 * (((List.insertionSort (· ≤ ·) values).length : ℚ) - 1))
      refine le_interp (pct_rank_nonneg h h0) (pct_rank_le h h100) ?_
      intro y hy
      exact pymin_le values y ((List.mem_insertionSort _).mp hy)

lemma percentile_le_pymax (values : List ℚ) (p : ℚ) (h : values ≠ []) :
    percentile values p ≤ pymax values := by
  by_cases h0 : p ≤ 0
  · unfold percentile
    rw [if_neg h, if_pos h0]
    exact pymax_ge values (pymin values) (pymin_mem values h)
  · by_cases h100 : 100 ≤ p
    · unfold percentile
      rw [if_neg h, if_neg h0, if_pos h100]
    · unfold percentile
      rw [if_neg h, if_neg h0, if_neg h100]
      show interp (List.insertionSort (· ≤ ·) values)
        (p / 100 * (((List.insertionSort (· ≤ ·) values).length : ℚ) - 1)) ≤ pymax values
      refine interp_le (pct_rank_nonneg h h0) (pct_rank_le h h100) ?_
      intro y hy
      exact pymax_ge values y ((List.mem_insertionSort _).mp hy)

/-- C6: when every page's `char_count` is at or above the gating threshold,
the candidate set is empty, hence the relative flag set is empty, and
`suggest_excludes` returns exactly the ascending deduplicated union of the
absolute-low-text set and the image-dominant set. -/
theorem suggest_excludes_gating (signals : List PageSignals) (cfg : SuggestConfig)
    (h : ∀ s ∈ signals, cfg.rel_apply_only_if_chars_below ≤ s.char_count) :
    suggest_excludes signals cfg =
      List.insertionSort (· ≤ ·)
        (absoluteLowText signals cfg ++ imageDominant signals).dedup := by
  have hcand : signals.filter
      (fun s => decide (s.char_count < cfg.rel_apply_only_if_chars_below)) = [] := by
    rw [List.filter_eq_nil_iff]
    intro a ha
    simp only [decide_eq_true_eq]
    exact Nat.not_lt.mpr (h a ha)
  by_cases hne : signals = []
  · subst hne
    simp [suggest_excludes, absoluteLowText, imageDominant]
  · simp only [suggest_excludes, if_neg hne, hcand, List.append_nil]

/-- C6 witness: two text-heavy signal records, all at or above the gate of
350 characters; the engine returns just the image-dominant page. -/
theorem suggest_excludes_gating_witness :
    (∀ s ∈ demoSignals, (⟨250, 1000000, 15, 350⟩ : SuggestConfig).rel_apply_only_if_chars_below ≤
        s.char_count) ∧
    suggest_excludes demoSignals ⟨250, 1000000, 15, 350⟩ =
      List.insertionSort (· ≤ ·)
        (absoluteLowText demoSignals ⟨250, 1000000, 15, 350⟩ ++ imageDominant demoSignals).dedup :=
  ⟨by decide, suggest_excludes_gating demoSignals ⟨250, 1000000, 15, 350⟩ (by decide)⟩

/-- C5 counterexample: with `max_suggestions = 1`, page 1 satisfies the
absolute flag condition (0 characters) yet is truncated away, so the output
does not contain every absolutely-flagged page index. -/
theorem hybrid_abs_subset_cex :
    (⟨1, 0, 1, 0⟩ : PageTextStats) ∈ cexStats ∧
    ((⟨1, 0, 1, 0⟩ : PageTextStats).char_count < 250 ∨
      (⟨1, 0, 1, 0⟩ : PageTextStats).density < 25) ∧
    (⟨1, 0, 1, 0⟩ : PageTextStats).page_index ∉
      suggest_excludes_hybrid cexStats 250 25 0 (some 1) := by
  decide

/-- C5 (amended): with `max_suggestions` absent, every page whose stats meet
the absolute flag condition has its index in the output of
`suggest_excludes_hybrid`. -/
theorem hybrid_abs_subset (stats : List PageTextStats) (amc : ℕ) (amd rp : ℚ)
    (s : PageTextStats) (hs : s ∈ stats)
    (habs : s.char_count < amc ∨ s.density < amd) :
    s.page_index ∈ suggest_excludes_hybrid stats amc amd rp none := by
  have hne : stats ≠ [] := List.ne_nil_of_mem hs
  simp only [suggest_excludes_hybrid, if_neg hne]
  rw [List.mem_insertionSort, List.mem_dedup]
  have hpred : ((decide (s.char_count < amc) || decide (s.density < amd)) ||
      decide (s.density ≤ percentile (stats.map (fun s => s.density)) rp)) = true := by
    rcases habs with h | h <;> simp [h]
  exact List.mem_map_of_mem _ (List.mem_filter.mpr ⟨hs, hpred⟩)

/-- C5 witness: a single zero-character page is absolutely flagged and
appears in the uncapped output. -/
theorem hybrid_abs_subset_witness :
    (emptyPageStat ∈ [emptyPageStat] ∧ emptyPageStat.char_count < 250) ∧
    emptyPageStat.page_index ∈ suggest_excludes_hybrid [emptyPageStat] 250 25 20 none :=
  ⟨⟨by decide, by decide⟩,
    hybrid_abs_subset [emptyPageStat] 250 25 20 emptyPageStat (by decide) (Or.inl (by decide))⟩

/-- C10 (implicit): for non-empty stats and no cap, the hybrid suggester
never returns an empty list: the percentile cutoff is at least the minimum
density, and the relative comparison `density ≤ cutoff` is inclusive, so a
page of minimum density is always flagged. -/
theorem hybrid_nonempty (stats : List PageTextStats) (amc : ℕ) (amd rp : ℚ)
    (h1 : stats ≠ []) (_h2 : 0 ≤ rp) :
    suggest_excludes_hybrid stats amc amd rp none ≠ [] := by
  have hdne : stats.map (fun s => s.density) ≠ [] := by
    intro hc
    exact h1 (List.map_eq_nil_iff.mp hc)
  obtain ⟨s0, hs0, hd0⟩ := List.mem_map.mp (pymin_mem _ hdne)
  apply List.ne_nil_of_mem (a := s0.page_index)
  simp only [suggest_excludes_hybrid, if_neg h1]
  rw [List.mem_insertionSort, List.mem_dedup]
  have hcut : s0.density ≤ percentile (stats.map (fun s => s.density)) rp := by
    rw [hd0]
    exact pymin_le_percentile _ rp hdne
  have hpred : ((decide (s0.char_count < amc) || decide (s0.density < amd)) ||
      decide (s0.density ≤ percentile (stats.map (fun s => s.density)) rp)) = true := by
    simp [hcut]
  exact List.mem_map_of_mem _ (List.mem_filter.mpr ⟨hs0, hpred⟩)

/-- C10 witness: a single text-heavy page (above both absolute thresholds)
still yields a non-empty suggestion list. -/
theorem hybrid_nonempty_witness :
    (demoStats ≠ [] ∧ (0:ℚ) ≤ 20) ∧
    suggest_excludes_hybrid demoStats 250 25 20 none ≠ [] :=
  ⟨⟨by decide, by decide⟩, hybrid_nonempty demoStats 250 25 20 (by decide) (by decide)⟩

/-- Monotonicity of the interpolation kernel in the rank, over a sorted
list. -/
lemma interp_mono (xs : List ℚ) (hs : List.Sorted (· ≤ ·) xs) (r1 r2 : ℚ)
    (h0 : 0 ≤ r1) (h12 : r1 ≤ r2) (h2 : r2 ≤ (xs.length : ℚ) - 1) :
    interp xs r1 ≤ interp xs r2 := by
  have h0' : 0 ≤ r2 := le_trans h0 h12
  have hn : 1 ≤ xs.length := length_pos_of_rank h0' h2
  have hl2n : (⌊r2⌋).toNat ≤ xs.length - 1 := floor_toNat_le h0' h2
  have hl1l2 : (⌊r1⌋).toNat ≤ (⌊r2⌋).toNat := Int.toNat_le_toNat (Int.floor_mono h12)
  have hl1n : (⌊r1⌋).toNat ≤ xs.length - 1 := le_trans hl1l2 hl2n
  have hlo1 : (⌊r1⌋).toNat < xs.length := by omega
  have hhi1 : min ((⌊r1⌋).toNat + 1) (xs.length - 1) < xs.length := by omega
  have hlo2 : (⌊r2⌋).toNat < xs.length := by omega
  have hhi2 : min ((⌊r2⌋).toNat + 1) (xs.length - 1) < xs.length := by omega
  have hf01 := frac_nonneg h0
  have hf11 := frac_le_one h0
  have hf02 := frac_nonneg h0'
  have hf12 := frac_le_one h0'
  have hAB1 : xs.getD ((⌊r1⌋).toNat) 0 ≤ xs.getD (min ((⌊r1⌋).toNat + 1) (xs.length - 1)) 0 :=
    sorted_getD_mono xs hs _ _ 0 (by omega) hhi1
  have hAB2 : xs.getD ((⌊r2⌋).toNat) 0 ≤ xs.getD (min ((⌊r2⌋).toNat + 1) (xs.length - 1)) 0 :=
    sorted_getD_mono xs hs _ _ 0 (by omega) hhi2
  rcases Nat.eq_or_lt_of_le hl1l2 with heq | hlt
  · simp only [interp]
    rw [heq]
    have hfr' : r1 - (((⌊r2⌋).toNat : ℕ) : ℚ) ≤ r2 - (((⌊r2⌋).toNat : ℕ) : ℚ) :=
      sub_le_sub_right h12 _
    nlinarith [mul_nonneg (sub_nonneg.mpr hAB2) (sub_nonneg.mpr hfr')]
  · have hstep1 : interp xs r1 ≤ xs.getD (min ((⌊r1⌋).toNat + 1) (xs.length - 1)) 0 := by
      simp only [interp]
      nlinarith [mul_nonneg (sub_nonneg.mpr hAB1)
        (by linarith : (0:ℚ) ≤ 1 - (r1 - (((⌊r1⌋).toNat : ℕ) : ℚ)))]
    have hmid : xs.getD (min ((⌊r1⌋).toNat + 1) (xs.length - 1)) 0 ≤
        xs.getD ((⌊r2⌋).toNat) 0 :=
      sorted_getD_mono xs hs _ _ 0 (by omega) hlo2
    have hstep3 : xs.getD ((⌊r2⌋).toNat) 0 ≤ interp xs r2 := by
      simp only [interp]
      nlinarith [mul_nonneg (sub_nonneg.mpr hAB2) hf02]
    exact le_trans (le_trans hstep1 hmid) hstep3

/-- C8: for a fixed non-empty list of values, `percentile` is non-decreasing
in the percentage argument. -/
theorem percentile_mono (values : List ℚ) (p q : ℚ) (hne : values ≠ []) (hpq : p ≤ q) :
    percentile values p ≤ percentile values q := by
  by_cases hp0 : p ≤ 0
  · have hrw : percentile values p = pymin values := by
      unfold percentile
      rw [if_neg hne, if_pos hp0]
    rw [hrw]
    exact pymin_le_percentile values q hne
  · by_cases hq100 : 100 ≤ q
    · have hrw : percentile values q = pymax values := by
        unfold percentile
        rw [if_neg hne, if_neg (by intro h; exact hp0 (le_trans hpq h) : ¬ q ≤ 0),
          if_pos hq100]
      rw [hrw]
      exact percentile_le_pymax values p hne
    · have hq0 : ¬ q ≤ 0 := by intro h; exact hp0 (le_trans hpq h)
      have hp100 : ¬ 100 ≤ p := by intro h; exact hq100 (le_trans h hpq)
      unfold percentile
      rw [if_neg hne, if_neg hp0, if_neg hp100, if_neg hne, if_neg hq0, if_neg hq100]
      show interp (List.insertionSort (· ≤ ·) values)
          (p / 100 * (((List.insertionSort (· ≤ ·) values).length : ℚ) - 1)) ≤
        interp (List.insertionSort (· ≤ ·) values)
          (q / 100 * (((List.insertionSort (· ≤ ·) values).length : ℚ) - 1))
      have h1 : (1:ℚ) ≤ ((List.insertionSort (· ≤ ·) values).length : ℚ) := by
        have hn : 1 ≤ (List.insertionSort (· ≤ ·) values).length := by
          rw [(List.perm_insertionSort (· ≤ ·) values).length_eq]
          exact List.length_pos.mpr hne
        exact_mod_cast hn
      refine interp_mono _ (List.sorted_insertionSort (· ≤ ·) values) _ _
        (pct_rank_nonneg hne hp0) ?_ (pct_rank_le hne hq100)
      nlinarith [mul_nonneg (by linarith : (0:ℚ) ≤ (q - p) / 100)
        (by linarith : (0:ℚ) ≤ ((List.insertionSort (· ≤ ·) values).length : ℚ) - 1)]

/-- C8 witness: a concrete three-element list and 10 ≤ 50. -/
theorem percentile_mono_witness :
    (([1, 2, 3] : List ℚ) ≠ [] ∧ (10:ℚ) ≤ 50) ∧
    percentile [1, 2, 3] 10 ≤ percentile [1, 2, 3] 50 :=
  ⟨⟨by decide, by decide⟩, percentile_mono [1, 2, 3] 10 50 (by decide) (by decide)⟩

/-! The spec's right-fold minimum/maximum agree with the code's `min`/`max`. -/

lemma foldr_min_le_init (l : List ℚ) (a : ℚ) : l.foldr min a ≤ a := by
  induction l with
  | nil => exact le_refl a
  | cons b t ih =>
    simp only [List.foldr_cons]
    exact le_trans (min_le_right b (t.foldr min a)) ih

lemma foldr_min_le_mem (l : List ℚ) (a : ℚ) : ∀ y ∈ l, l.foldr min a ≤ y := by
  induction l with
  | nil => intro y hy; exact absurd hy (List.not_mem_nil y)
  | cons b t ih =>
    intro y hy
    simp only [List.foldr_cons]
    rcases List.mem_cons.mp hy with h | h
    · subst h; exact min_le_left y _
    · exact le_trans (min_le_right b _) (ih y h)

lemma foldr_min_mem (l : List ℚ) (a : ℚ) : l.foldr min a = a ∨ l.foldr min a ∈ l := by
  induction l with
  | nil => exact Or.inl rfl
  | cons b t ih =>
    simp only [List.foldr_cons]
    rcases min_choice b (t.foldr min a) with h | h
    · exact Or.inr (by rw [h]; exact List.mem_cons_self b t)
    · rcases ih with h' | h'
      · exact Or.inl (h.trans h')
      · exact Or.inr (by rw [h]; exact List.mem_cons_of_mem b h')

lemma foldr_max_ge_init (l : List ℚ) (a : ℚ) : a ≤ l.foldr max a := by
  induction l with
  | nil => exact le_refl a
  | cons b t ih =>
    simp only [List.foldr_cons]
    exact le_trans ih (le_max_right b (t.foldr max a))

lemma foldr_max_ge_mem (l : List ℚ) (a : ℚ) : ∀ y ∈ l, y ≤ l.foldr max a := by
  induction l with
  | nil => intro y hy; exact absurd hy (List.not_mem_nil y)
  | cons b t ih =>
    intro y hy
    simp only [List.foldr_cons]
    rcases List.mem_cons.mp hy with h | h
    · subst h; exact le_max_left y _
    · exact le_trans (ih y h) (le_max_right b _)

lemma foldr_max_mem (l : List ℚ) (a : ℚ) : l.foldr max a = a ∨ l.foldr max a ∈ l := by
  induction l with
  | nil => exact Or.inl rfl
  | cons b t ih =>
    simp only [List.foldr_cons]
    rcases max_choice b (t.foldr max a) with h | h
    · exact Or.inr (by rw [h]; exact List.mem_cons_self b t)
    · rcases ih with h' | h'
      · exact Or.inl (h.trans h')
      · exact Or.inr (by rw [h]; exact List.mem_cons_of_mem b h')

lemma pymin_eq_foldr (v : ℚ) (vs : List ℚ) : pymin (v :: vs) = vs.foldr min v := by
  apply le_antisymm
  · rcases foldr_min_mem vs v with h | h
    · exact pymin_le _ _ (by rw [h]; exact List.mem_cons_self v vs)
    · exact pymin_le _ _ (List.mem_cons_of_mem v h)
  · rcases List.mem_cons.mp (pymin_mem (v :: vs) (List.cons_ne_nil v vs)) with h | h
    · rw [h]; exact foldr_min_le_init vs v
    · exact foldr_min_le_mem vs v _ h

lemma pymax_eq_foldr (v : ℚ) (vs : List ℚ) : pymax (v :: vs) = vs.foldr max v := by
  apply le_antisymm
  · rcases List.mem_cons.mp (pymax_mem (v :: vs) (List.cons_ne_nil v vs)) with h | h
    · rw [h]; exact foldr_max_ge_init vs v
    · exact foldr_max_ge_mem vs v _ h
  · rcases foldr_max_mem vs v with h | h
    · exact pymax_ge _ _ (by rw [h]; exact List.mem_cons_self v vs)
    · exact pymax_ge _ _ (List.mem_cons_of_mem v h)

/-- C3: the code's `percentile` coincides with the spec's reference
definition on every input: 0 on the empty sequence, the minimum for
`p ≤ 0`, the maximum for `p ≥ 100`, and otherwise linear interpolation
between the order statistics at `lo = ⌊r⌋` and `hi = min(lo+1, n-1)` with
`r = (p/100)·(n-1)`. -/
theorem percentile_eq_percentileSpec (values : List ℚ) (p : ℚ) :
    percentile values p = percentileSpec values p := by
  cases values with
  | nil => rfl
  | cons v vs =>
    have hne : (v :: vs) ≠ [] := List.cons_ne_nil v vs
    by_cases h0 : p ≤ 0
    · simp only [percentile, percentileSpec]
      rw [if_neg hne, if_pos h0, if_pos h0]
      exact pymin_eq_foldr v vs
    · by_cases h100 : 100 ≤ p
      · simp only [percentile, percentileSpec]
        rw [if_neg hne, if_neg h0, if_pos h100, if_neg h0, if_pos h100]
        exact pymax_eq_foldr v vs
      · simp only [percentile, percentileSpec]
        rw [if_neg hne, if_neg h0, if_neg h100, if_neg h0, if_neg h100]
        have hxs : (v :: vs).mergeSort (fun a b => decide (a ≤ b)) =
            List.insertionSort (· ≤ ·) (v :: vs) :=
          List.mergeSort_eq_insertionSort (· ≤ ·) (v :: vs)
        have hn' : (List.insertionSort (· ≤ ·) (v :: vs)).length = (v :: vs).length :=
          (List.perm_insertionSort (· ≤ ·) (v :: vs)).length_eq
        rw [hxs, hn']
        have hn1 : 1 ≤ (v :: vs).length := by
          simp only [List.length_cons]
          omega
        have hr0 : 0 ≤ p / 100 * (((v :: vs).length : ℚ) - 1) := by
          have h1 : (1:ℚ) ≤ ((v :: vs).length : ℚ) := by exact_mod_cast hn1
          have hp : 0 < p := lt_of_not_ge h0
          exact mul_nonneg (div_nonneg hp.le (by norm_num)) (by linarith)
        have hflnn : (0:ℤ) ≤ ⌊p / 100 * (((v :: vs).length : ℚ) - 1)⌋ :=
          Int.floor_nonneg.mpr hr0
        have hhi : (min (⌊p / 100 * (((v :: vs).length : ℚ) - 1)⌋ + 1)
              (((v :: vs).length : ℤ) - 1)).toNat =
            min ((⌊p / 100 * (((v :: vs).length : ℚ) - 1)⌋).toNat + 1)
              ((v :: vs).length - 1) := by
          omega
        rw [hhi, show ((⌊p / 100 * (((v :: vs).length : ℚ) - 1)⌋ : ℤ) : ℚ) =
            (((⌊p / 100 * (((v :: vs).length : ℚ) - 1)⌋).toNat : ℕ) : ℚ) from
          (toNat_floor_cast hr0).symm]
